import Mathlib

/-!
Verification development for the Review Board diff engine specification.

The repository's `reviewboard/diffviewer` package ships `models.py` and
`tests.py`; the algorithmic modules (`myersdiff.py`, `parser.py`,
`diffutils.py`, `processors.py`, `opcode_generator.py`, `managers.py`) are
referenced by the tests but their sources are not part of this tree, so the
corresponding definitions below are modelled from the specification (and are
calibrated against the concrete expectations recorded in
`reviewboard/diffviewer/tests.py`).  Definitions taken directly from
`reviewboard/diffviewer/models.py` are marked as such.
-/

/-- Tags carried by diff opcodes.  `equal`, `insert`, `delete` and `replace`
are produced by the sequence matcher; `filteredEqual` is introduced by the
interdiff opcode filter. -/
inductive Tag where
  | equal
  | insert
  | delete
  | replace
  | filteredEqual
deriving DecidableEq, Repr

/-- An opcode `(tag, i1, i2, j1, j2)`: `[i1, i2)` indexes into sequence A and
`[j1, j2)` into sequence B. -/
structure Opcode where
  tag : Tag
  i1 : Nat
  i2 : Nat
  j1 : Nat
  j2 : Nat
deriving DecidableEq, Repr

/-- Length of the common run of elements of `a` starting at `i` and of `b`
starting at `j`, capped at `cap`. -/
def matchLen [DecidableEq α] (a b : List α) : Nat → Nat → Nat → Nat
  | _, _, 0 => 0
  | i, j, cap + 1 =>
    match a[i]?, b[j]? with
    | some x, some y => if x = y then matchLen a b (i + 1) (j + 1) cap + 1 else 0
    | _, _ => 0

/-- One step of the longest-match search: replace the current best candidate
`(i, j, k)` by the run starting at the probed pair when that run is strictly
longer.  Using a strict comparison keeps the earliest match in A, then in B,
as the tie-break the specification requires. -/
def betterAt [DecidableEq α] (a b : List α) (ahi bhi : Nat)
    (best : Nat × Nat × Nat) (i j : Nat) : Nat × Nat × Nat :=
  let k := matchLen a b i j (min (ahi - i) (bhi - j))
  if best.2.2 < k then (i, j, k) else best

/-- Modelled from the spec: the matching-block search of the sequence matcher
(`reviewboard/diffviewer/myersdiff.py` is not under `src/`).  Finds the
longest matching block of `a` and `b` inside the window
`[alo, ahi) × [blo, bhi)`, preferring blocks that appear earliest in A and
then earliest in B. -/
def findLongestMatch [DecidableEq α] (a b : List α) (alo ahi blo bhi : Nat) :
    Nat × Nat × Nat :=
  (List.range' alo (ahi - alo)).foldl
    (fun best i =>
      (List.range' blo (bhi - blo)).foldl (fun best j => betterAt a b ahi bhi best i j) best)
    (alo, blo, 0)

/-- Modelled from the spec: the recursive matching-block computation of the
sequence matcher (`reviewboard/diffviewer/myersdiff.py` is not under
`src/`).  Finds the longest matching block in the window and recurses on the
windows to its left and to its right, as §4.1 of the specification describes
("recursively shrinking the search window around each match").  Following
§9's advice to bound the recursion depth explicitly, the recursion descends
along an explicit depth bound; each level strictly shrinks the combined
window size, so the bound chosen by `blocksIn` below is never exhausted. -/
def blocksGo [DecidableEq α] (a b : List α) :
    Nat → Nat → Nat → Nat → Nat → List (Nat × Nat × Nat)
  | 0, _, _, _, _ => []
  | depth + 1, alo, ahi, blo, bhi =>
    match findLongestMatch a b alo ahi blo bhi with
    | (i, j, k) =>
      if k = 0 then []
      else
        blocksGo a b depth alo i blo j ++
          (i, j, k) :: blocksGo a b depth (i + k) ahi (j + k) bhi

/-- The matching blocks of the window `[alo, ahi) × [blo, bhi)`, with a
depth bound that the shrinking window can never exhaust. -/
def blocksIn [DecidableEq α] (a b : List α) (alo ahi blo bhi : Nat) :
    List (Nat × Nat × Nat) :=
  blocksGo a b ((ahi - alo) + (bhi - blo) + 1) alo ahi blo bhi

/-- Opcodes covering the gap between the cursor `(ia, ja)` and the next
matching block starting at `(i, j)`: a `replace` covering the common length
of the two changed stretches, followed by a `delete` or an `insert` for the
excess on one side.  This mirrors the way the differ splits an unequal
changed region, as pinned down by `MyersDifferTest.test_diff`. -/
def gapOps (ia ja i j : Nat) : List Opcode :=
  let d := i - ia
  let n := j - ja
  let m := min d n
  (if m ≠ 0 then [⟨Tag.replace, ia, ia + m, ja, ja + m⟩] else []) ++
    (if n < d then [⟨Tag.delete, ia + m, i, ja + m, j⟩]
     else if d < n then [⟨Tag.insert, ia + m, i, ja + m, j⟩]
     else [])

/-- Turns a list of matching blocks into the full opcode stream: each block
becomes an `equal` opcode and each gap between blocks (and the final gap up
to the sequence ends) is emitted through `gapOps`. -/
def opcodesFromBlocks (alen blen : Nat) :
    List (Nat × Nat × Nat) → Nat → Nat → List Opcode
  | [], ia, ja => gapOps ia ja alen blen
  | (i, j, k) :: rest, ia, ja =>
    gapOps ia ja i j ++
      ⟨Tag.equal, i, i + k, j, j + k⟩ :: opcodesFromBlocks alen blen rest (i + k) (j + k)

/-- Modelled from the spec: `compute_opcodes(lines_a, lines_b)`
(`reviewboard/diffviewer/myersdiff.py` is not under `src/`).  Produces the
edit script between two sequences from the recursive matching-block
computation. -/
def computeOpcodes [DecidableEq α] (a b : List α) : List Opcode :=
  opcodesFromBlocks a.length b.length (blocksIn a b 0 a.length 0 b.length) 0 0

/-- Matching blocks listed in order inside the window bounded above by
`(ahi, bhi)`, starting no earlier than the running cursor. -/
def ChainedBlocks (ahi bhi : Nat) : Nat → Nat → List (Nat × Nat × Nat) → Prop
  | alo, blo, [] => alo ≤ ahi ∧ blo ≤ bhi
  | alo, blo, (i, j, k) :: rest =>
    alo ≤ i ∧ i + k ≤ ahi ∧ blo ≤ j ∧ j + k ≤ bhi ∧
      ChainedBlocks ahi bhi (i + k) (j + k) rest

/-- The opcode-partition contract: starting from the cursor `(ia, ja)`, each
opcode begins exactly where the previous one ended, its ranges do not run
backwards, every `replace` covers ranges of equal length on both sides, and
the final opcode ends exactly at `(ae, be)`.  `ChainFrom 0 0 (length A)
(length B) ops` states that `ops` partitions `[0, length A)` and
`[0, length B)` contiguously, in order and exactly once. -/
def ChainFrom : Nat → Nat → Nat → Nat → List Opcode → Prop
  | ia, ja, ae, be, [] => ia = ae ∧ ja = be
  | ia, ja, ae, be, op :: rest =>
    op.i1 = ia ∧ op.j1 = ja ∧ ia ≤ op.i2 ∧ ja ≤ op.j2 ∧
      (op.tag = Tag.replace → op.i2 - op.i1 = op.j2 - op.j1) ∧
      ChainFrom op.i2 op.j2 ae be rest

/-- Python `str.strip()` on a list of characters. -/
def pyStrip (l : List Char) : List Char :=
  ((l.dropWhile Char.isWhitespace).reverse.dropWhile Char.isWhitespace).reverse

/-- Modelled from the spec: `apply_patch(original, hunk_bytes, filename)`
(`reviewboard/diffviewer/diffutils.py` is not under `src/`).  Following the
specification's PatchApplier contract, an empty (whitespace-only) diff
returns the original content unchanged; any other diff is applied through
the hunk-application machinery, which the code delegates to an external
`patch` implementation and which is therefore modelled here as an explicit
function parameter. -/
def applyPatch (externalPatch : List Char → List Char → List Char → Option (List Char))
    (diff fileContents filename : List Char) : Option (List Char) :=
  if pyStrip diff = [] then some fileContents else externalPatch diff fileContents filename

/-- Boolean prefix test on character lists (first argument is the sought
prefix). -/
def startsWithChars : List Char → List Char → Bool
  | [], _ => true
  | _ :: _, [] => false
  | p :: ps, c :: cs => if p = c then startsWithChars ps cs else false

/-- A hunk body line counted as an insertion: first byte `+`, but not a
`+++` header line. -/
def isInsertBodyLine (l : List Char) : Bool :=
  startsWithChars ("+".data) l && ! startsWithChars ("+++".data) l

/-- A hunk body line counted as a deletion: first byte `-`, but not a
`---` header line. -/
def isDeleteBodyLine (l : List Char) : Bool :=
  startsWithChars ("-".data) l && ! startsWithChars ("---".data) l

/-- One file's change within a parsed diff: the collected hunk body lines
and the insertion/deletion line counts accumulated while scanning. -/
structure FileDiffRecord where
  body : List (List Char)
  insert_count : Nat
  delete_count : Nat
deriving DecidableEq, Repr

/-- Append one body line to a file record, bumping the accumulated counts. -/
def countLine (f : FileDiffRecord) (line : List Char) : FileDiffRecord :=
  { body := f.body ++ [line],
    insert_count := f.insert_count + (if isInsertBodyLine line then 1 else 0),
    delete_count := f.delete_count + (if isDeleteBodyLine line then 1 else 0) }

/-- Emit the file record currently being assembled, if any. -/
def flushFile : Option FileDiffRecord → List FileDiffRecord
  | none => []
  | some f => [f]

/-- Modelled from the spec: the scanning loop of the diff parser
(`reviewboard/diffviewer/parser.py` is not under `src/`).  Noise lines seen
before any per-file header are skipped; a `--- ` line immediately followed
by a `+++ ` line closes the current file record and starts a new one; every
other line inside a file is a hunk body line and updates the running
insert/delete counts. -/
def parseDiffGo : List (List Char) → Option FileDiffRecord → List FileDiffRecord
  | [], cur => flushFile cur
  | [line], cur =>
    match cur with
    | some f => [countLine f line]
    | none => []
  | line :: next :: rest2, cur =>
    if startsWithChars ("--- ".data) line && startsWithChars ("+++ ".data) next then
      flushFile cur ++ parseDiffGo rest2 (some ⟨[], 0, 0⟩)
    else
      match cur with
      | some f => parseDiffGo (next :: rest2) (some (countLine f line))
      | none => parseDiffGo (next :: rest2) none

/-- Modelled from the spec: `parse_diff(bytes)` restricted to what the
line-count claims need (`reviewboard/diffviewer/parser.py` is not under
`src/`). -/
def parseDiff (input : List (List Char)) : List FileDiffRecord :=
  parseDiffGo input none

/-- Number of hunk body lines whose first byte marks an addition, excluding
`+++` header lines — the specification's description of `insert_count`. -/
def specInsertCount (body : List (List Char)) : Nat :=
  body.countP isInsertBodyLine

/-- Number of hunk body lines whose first byte marks a removal, excluding
`---` header lines — the specification's description of `delete_count`. -/
def specDeleteCount (body : List (List Char)) : Nat :=
  body.countP isDeleteBodyLine

/-- Python `str.splitlines()` on character lists: lines separated by
newline characters, with no empty trailing line for a trailing newline. -/
def splitLinesAux : List Char → List Char → List (List Char)
  | [], cur => if cur = [] then [] else [cur.reverse]
  | c :: rest, cur =>
    if c = '\n' then cur.reverse :: splitLinesAux rest []
    else splitLinesAux rest (c :: cur)

/-- Splits a diff text into its lines, Python `splitlines` style. -/
def splitLines (s : List Char) : List (List Char) :=
  splitLinesAux s []

/-- Longest run of decimal digits at the head of the input, together with
the remaining characters. -/
def spanDigits : List Char → List Char × List Char
  | [] => ([], [])
  | c :: rest =>
    if c.isDigit then
      let p := spanDigits rest
      (c :: p.1, p.2)
    else ([], c :: rest)

/-- Numeric value of a digit run. -/
def digitsVal (ds : List Char) : Nat :=
  ds.foldl (fun n c => n * 10 + (c.toNat - 48)) 0

/-- Parses a nonempty digit run into its value, returning the rest of the
input as well. -/
def parseNum (cs : List Char) : Option (Nat × List Char) :=
  match spanDigits cs with
  | ([], _) => none
  | (ds, rest) => some (digitsVal ds, rest)

/-- Consumes an optional `,len` suffix of a hunk-header range, defaulting
the length to 1 as the diff format prescribes. -/
def parseOptLen : List Char → Nat × List Char
  | ',' :: rest =>
    match parseNum rest with
    | some (n, rest2) => (n, rest2)
    | none => (1, ',' :: rest)
  | cs => (1, cs)

/-- Drops an expected literal prefix. -/
def dropLit (lit : List Char) (cs : List Char) : Option (List Char) :=
  if startsWithChars lit cs then some (cs.drop lit.length) else none

/-- Modelled from the spec: the `@@ -l,s +l,s @@` hunk-header recognizer
used by the interdiff opcode filter (`reviewboard/diffviewer/processors.py`
is not under `src/`).  Matches the header at the start of the line, with
both lengths optional, and returns the new-file start line and length; a
line that does not carry the full `@@ ... @@` shape is not a header. -/
def parseHunkNewRange (line : List Char) : Option (Nat × Nat) :=
  match dropLit ("@@ -".data) line with
  | none => none
  | some r1 =>
    match parseNum r1 with
    | none => none
    | some (_, r2) =>
      let p := parseOptLen r2
      match dropLit (" +".data) p.2 with
      | none => none
      | some r3 =>
        match parseNum r3 with
        | none => none
        | some (ns, r4) =>
          let q := parseOptLen r4
          match dropLit (" @@".data) q.2 with
          | none => none
          | some _ => some (ns, q.1)

/-- A 0-based line range `[start, start + len]` derived from a hunk header
whose chunk starts at 1-based line `chunkStart` with `ctx` context lines
shown before the first change. -/
def rangeOf (chunkStart chunkLen ctx : Nat) : Int × Int :=
  ((chunkStart : Int) - 1 + ctx, (chunkStart : Int) - 1 + ctx + chunkLen)

/-- State of the hunk-range scan over one diff's lines. -/
structure RangeScanState where
  processChanges : Bool
  chunkStart : Nat
  chunkLen : Nat
  ctx : Nat
  ranges : List (Int × Int)

/-- Modelled from the spec: one step of the interdiff filter's hunk-range
scan (`reviewboard/diffviewer/processors.py` is not under `src/`).  After a
hunk header, context lines are counted until the first `+`/`-` change line
fixes the amount of leading context and closes the range for that hunk. -/
def findRangeStep (st : RangeScanState) (line : List Char) : RangeScanState :=
  if st.processChanges &&
      (startsWithChars ("-".data) line || startsWithChars ("+".data) line) then
    { st with
      ranges := st.ranges ++ [rangeOf st.chunkStart st.chunkLen st.ctx],
      processChanges := false }
  else
    let st1 := if st.processChanges then { st with ctx := st.ctx + 1 } else st
    match parseHunkNewRange line with
    | some (s, l) =>
      { st1 with chunkStart := s, chunkLen := l, processChanges := true, ctx := 0 }
    | none => st1

/-- Modelled from the spec: the interdiff filter's `_find_range_info`
(`reviewboard/diffviewer/processors.py` is not under `src/`): the 0-based
new-file line ranges covered by the hunks of a diff text. -/
def findRangeInfo (diff : List Char) : List (Int × Int) :=
  let st := (splitLines diff).foldl findRangeStep ⟨false, 0, 0, 0, []⟩
  if st.processChanges then
    st.ranges ++ [rangeOf st.chunkStart st.chunkLen st.ctx]
  else st.ranges

/-- Walks the remaining hunk ranges, advancing the index past every range
whose end lies strictly before the opcode start `x`. -/
def advanceFrom (x : Nat) : List (Int × Int) → Nat → Nat
  | [], idx => idx
  | r :: rest, idx => if (x : Int) > r.2 then advanceFrom x rest (idx + 1) else idx

/-- Advances the hunk-range index past every range whose end lies strictly
before the opcode start `x`, mirroring the filter's range-advancing loop. -/
def advanceRangeIdx (ranges : List (Int × Int)) (x : Nat) (idx : Nat) : Nat :=
  advanceFrom x (ranges.drop idx) idx

/-- Whether an opcode's side falls inside the current hunk range: its start
must be at or past the range start, and non-`delete` opcodes must cover at
least one line on that side. -/
def isRangeValid (r : Option (Int × Int)) (tag : Tag) (x1 x2 : Nat) : Bool :=
  match r with
  | some rr => decide ((x1 : Int) ≥ rr.1) && (decide (tag = Tag.delete) || decide (x1 ≠ x2))
  | none => false

/-- Modelled from the spec: processing of a single opcode by
`filter_interdiff_opcodes` (`reviewboard/diffviewer/processors.py` is not
under `src/`).  Opcodes outside every hunk range are re-tagged
`filteredEqual`; an `equal` opcode running past the end of the current
original-side range is split there; a `replace` is cut at the range
boundaries of both sides, keeping the longer of the two cut lengths on both
sides so that its two sides never end up with unequal lengths (the bug-3440
guard), with the tail re-tagged `filteredEqual`. -/
def filterOut (oR nR : Option (Int × Int)) (op : Opcode) : List Opcode :=
  if !isRangeValid oR op.tag op.i1 op.i2 && !isRangeValid nR op.tag op.j1 op.j2 then
    [{ op with tag := Tag.filteredEqual }]
  else
    match op.tag with
    | Tag.equal =>
      let cutI :=
        match oR with
        | some rr => min op.i2 (rr.2 + 1).toNat
        | none => op.i2
      if cutI < op.i2 then
        [⟨Tag.equal, op.i1, cutI, op.j1, op.j1 + (cutI - op.i1)⟩,
         ⟨Tag.filteredEqual, cutI, op.i2, op.j1 + (cutI - op.i1), op.j2⟩]
      else [op]
    | Tag.replace =>
      let cutI :=
        match oR with
        | some rr => min op.i2 (rr.2 + 1).toNat
        | none => op.i2
      let cutJ :=
        match nR with
        | some rr => min op.j2 (rr.2 + 1).toNat
        | none => op.j2
      let L := max (cutI - op.i1) (cutJ - op.j1)
      if op.i1 + L < op.i2 ∨ op.j1 + L < op.j2 then
        [⟨Tag.replace, op.i1, op.i1 + L, op.j1, op.j1 + L⟩,
         ⟨Tag.filteredEqual, op.i1 + L, op.i2, op.j1 + L, op.j2⟩]
      else [op]
    | _ => [op]

/-- Advances both range cursors for the incoming opcode and appends to the
accumulator whatever `filterOut` emits for it against the current ranges. -/
def filterStep (origRanges newRanges : List (Int × Int))
    (st : Nat × Nat × List Opcode) (op : Opcode) : Nat × Nat × List Opcode :=
  let oi := advanceRangeIdx origRanges op.i1 st.1
  let ni := advanceRangeIdx newRanges op.j1 st.2.1
  (oi, ni, st.2.2 ++ filterOut origRanges[oi]? newRanges[ni]? op)

/-- Modelled from the spec: `filter_interdiff_opcodes(opcodes, diff_a_text,
diff_b_text)` (`reviewboard/diffviewer/processors.py` is not under `src/`).
When neither diff contributes hunk ranges the opcodes pass through
unchanged; otherwise each opcode is rebased against the hunk ranges of both
diffs via `filterStep`. -/
def filterInterdiffOpcodes (opcodes : List Opcode) (origDiff newDiff : List Char) :
    List Opcode :=
  let origRanges := findRangeInfo origDiff
  let newRanges := findRangeInfo newDiff
  if origRanges = [] ∧ newRanges = [] then opcodes
  else (opcodes.foldl (filterStep origRanges newRanges) (0, 0, [])).2.2

/-- Every `replace` opcode of the list covers ranges of equal length on its
two sides. -/
def replacesBalanced (ops : List Opcode) : Prop :=
  ∀ op ∈ ops, op.tag = Tag.replace → op.i2 - op.i1 = op.j2 - op.j1

/-- An opcode enriched with move metadata.  `movedFrom` lives on the
insertion side and maps 1-based inserted line numbers to the 1-based
deleted line numbers they came from; `movedTo` lives on the deletion side
and maps 1-based deleted line numbers to the 1-based inserted line numbers
they moved to (the convention pinned down by
`DiffParserTest.test_move_detection_spanning_chunks`). -/
structure MetaOpcode where
  op : Opcode
  movedFrom : List (Nat × Nat)
  movedTo : List (Nat × Nat)
deriving DecidableEq, Repr

/-- Leading and trailing whitespace stripped from a line. -/
def stripChars (l : List Char) : List Char :=
  ((l.dropWhile Char.isWhitespace).reverse.dropWhile Char.isWhitespace).reverse

/-- Modelled from the spec: the registry of deleted lines consulted by move
detection (`reviewboard/diffviewer/opcode_generator.py` is not under
`src/`).  Each non-blank deleted line (from `delete` and `replace` opcodes)
is recorded with its 0-based line index and the index of the opcode group
holding it. -/
def removedEntries (a : List (List Char)) (ops : List Opcode) :
    List (List Char × Nat × Nat) :=
  (ops.enum).flatMap fun p =>
    if p.2.tag = Tag.delete ∨ p.2.tag = Tag.replace then
      (List.range' p.2.i1 (p.2.i2 - p.2.i1)).filterMap fun i =>
        match a[i]? with
        | some line =>
          let t := stripChars line
          if t = [] then none else some (t, i, p.1)
        | none => none
    else []

/-- Modelled from the spec: candidacy of a deleted line as the source of a
moved inserted line.  Per §4.4 and §9 of the specification, candidacy is
gated by a content-length threshold (at least 4 characters once stripped)
and by uniqueness within the file's deleted lines — an inserted line whose
content matches several deleted lines (for example repeated noise such as
`----`) has no unambiguous source and is not a move candidate. -/
def lookupRemoved (entries : List (List Char × Nat × Nat)) (t : List Char) :
    Option (Nat × Nat) :=
  match entries.filter (fun e => e.1 = t) with
  | [e] => if 4 ≤ t.length then some e.2 else none
  | _ => none

/-- A contiguous run of inserted lines whose contents match consecutive
deleted lines: `len` pairs starting at inserted line `jStart` and deleted
line `iStart`, with `groups` the opcode groups holding the deleted lines. -/
structure MoveRun where
  jStart : Nat
  iStart : Nat
  len : Nat
  groups : List Nat
deriving DecidableEq, Repr

/-- Walks the inserted-line indexes of one insertion group, grouping
consecutive matching insert/delete pairs into move runs. -/
def extendRuns (entries : List (List Char × Nat × Nat)) (b : List (List Char)) :
    List Nat → Option MoveRun → List MoveRun
  | [], some r => [r]
  | [], none => []
  | j :: rest, cur =>
    let cand :=
      match b[j]? with
      | some line => lookupRemoved entries (stripChars line)
      | none => none
    match cand, cur with
    | some (i, g), some r =>
      if i = r.iStart + r.len then
        extendRuns entries b rest (some { r with len := r.len + 1, groups := r.groups ++ [g] })
      else r :: extendRuns entries b rest (some ⟨j, i, 1, [g]⟩)
    | some (i, g), none => extendRuns entries b rest (some ⟨j, i, 1, [g]⟩)
    | none, some r => r :: extendRuns entries b rest none
    | none, none => extendRuns entries b rest none

/-- Modelled from the spec: the move-range significance thresholds (§4.4,
§9; the literal constants are calibrated against
`DiffParserTest.test_move_detection_single_line_thresholds`).  A run is
significant when it spans at least two lines, or when a single-line run
carries a line of at least 20 stripped characters. -/
def runValid (b : List (List Char)) (r : MoveRun) : Bool :=
  decide (2 ≤ r.len) ||
    (List.range' r.jStart r.len).any fun j =>
      match b[j]? with
      | some line => decide (20 ≤ (stripChars line).length)
      | none => false

/-- The `moved-from` map of a run: 1-based inserted line to 1-based deleted
line. -/
def runMovedFrom (r : MoveRun) : List (Nat × Nat) :=
  (List.range r.len).map fun t => (r.jStart + t + 1, r.iStart + t + 1)

/-- The `moved-to` map of a run: 1-based deleted line to 1-based inserted
line. -/
def runMovedTo (r : MoveRun) : List (Nat × Nat) :=
  (List.range r.len).map fun t => (r.iStart + t + 1, r.jStart + t + 1)

/-- Modelled from the spec: `enrich_opcodes(opcodes, lines_a, lines_b)` —
the move-detection pass of the opcode generator
(`reviewboard/diffviewer/opcode_generator.py` is not under `src/`).  Runs
of relocated lines are detected between the insertion groups and the
registry of deleted lines; each significant run stamps its `moved-from` map
on the insertion-side group and its full `moved-to` map on every
deletion-side group it touches. -/
def enrichOpcodes (a b : List (List Char)) : List MetaOpcode :=
  let ops := computeOpcodes a b
  let entries := removedEntries a ops
  let runs := (ops.enum).flatMap fun p =>
    if p.2.tag = Tag.insert ∨ p.2.tag = Tag.replace then
      ((extendRuns entries b (List.range' p.2.j1 (p.2.j2 - p.2.j1)) none).filter
          (runValid b)).map fun r => (p.1, r)
    else []
  ops.enum.map fun p =>
    let mf := (runs.filter (fun q => q.1 = p.1)).flatMap fun q => runMovedFrom q.2
    let mt := (runs.filter (fun q => p.1 ∈ q.2.groups)).flatMap fun q => runMovedTo q.2
    ⟨p.2, mf, mt⟩

/-- The lines of `DiffParserTest.test_move_detection_single_line_thresholds`
(original side): a 19-character line, two `----` noise lines and a
20-character line. -/
def c6LinesA : List (List Char) :=
  [("0123456789012345678".data),
   ("----".data),
   ("----".data),
   ("abcdefghijklmnopqrst".data)]

/-- The new side of the same test: the 19- and 20-character lines have
swapped places. -/
def c6LinesB : List (List Char) :=
  [("abcdefghijklmnopqrst".data),
   ("----".data),
   ("----".data),
   ("0123456789012345678".data)]

/-- A file pair in which only a block of identical short noise lines
(`----`) is relocated: the two long unique lines stay in place and the
noise block moves from the tail to the head. -/
def c6NoiseA : List (List Char) :=
  [("this is a sufficiently long unique line 1".data),
   ("this is a sufficiently long unique line 2".data),
   ("----".data),
   ("----".data)]

/-- New side of the noise-relocation pair. -/
def c6NoiseB : List (List Char) :=
  [("----".data),
   ("----".data),
   ("this is a sufficiently long unique line 1".data),
   ("this is a sufficiently long unique line 2".data)]

/-- The documented example diff of `DiffParserTest.test_line_counts`, split
into lines: one file, preceded by unrelated noise lines. -/
def c5ExampleLines : List (List Char) :=
  [("+ This is some line before the change".data),
   ("- And another line".data),
   ("Index: foo".data),
   ("- One last.".data),
   ("--- README  123".data),
   ("+++ README  (new)".data),
   ("@ -1,1 +1,1 @@".data),
   ("-blah blah".data),
   ("-blah".data),
   ("+blah!".data),
   ("-blah...".data),
   ("+blah?".data),
   ("-blah!".data),
   ("+blah?!".data)]

/-- Revision held by the most recent diffset of a history: Django's
`latest()` under `get_latest_by = 'revision'` returns the diffset with the
greatest revision (`DiffSet.Meta` in `reviewboard/diffviewer/models.py`). -/
def latestRevision (revisions : List Nat) : Nat :=
  revisions.foldl max 0

/-- The revision assigned by `DiffSet.save` in
`reviewboard/diffviewer/models.py`: a diffset saved with revision 0 into a
history receives revision 1 when the history holds no diffsets, and one more
than the most recent diffset's revision otherwise; any other preset revision
is kept. -/
def saveRevision (revision : Nat) (histRevisions : List Nat) : Nat :=
  if revision = 0 then
    if histRevisions = [] then 1 else latestRevision histRevisions + 1
  else revision

/-- The revisions of a history after `n` diffsets have been saved into it
through the revision-0 path of `DiffSet.save`. -/
def historyAfter : Nat → List Nat
  | 0 => []
  | n + 1 => historyAfter n ++ [saveRevision 0 (historyAfter n)]

/-- Error taxonomy relevant to reading stored diff data:
`reviewboard.diffviewer.errors.DiffParserError` for malformed diff input,
and Python's `NotImplementedError` — a distinct condition — for an
unsupported compression method. -/
inductive DiffDataError where
  | notImplemented (compression : Char)
  | diffParserError (msg : List Char)
deriving DecidableEq, Repr

/-- `RawFileDiffData.content` from `reviewboard/diffviewer/models.py`: a
stored compression marker equal to `COMPRESSION_BZIP2` (`'B'`) yields the
bz2-decompressed stored bytes, no marker yields the stored bytes unchanged,
and any other marker raises `NotImplementedError`.  The bz2 library is
external and enters as a function parameter. -/
def rawContent (bz2decompress : List Nat → List Nat) :
    Option Char → List Nat → Except DiffDataError (List Nat)
  | some c, binary =>
    if c = 'B' then Except.ok (bz2decompress binary)
    else Except.error (DiffDataError.notImplemented c)
  | none, binary => Except.ok binary

/-- Modelled from the spec: `RawFileDiffDataManager.process_diff_data`
(`reviewboard/diffviewer/managers.py` is not under `src/`; behavior fixed by
the `RawFileDiffData` docstring in `models.py` — store bzip2-compressed data
when the compressed form is smaller than the raw data, raw data otherwise —
and by `RawFileDiffDataManagerTests`).  The bz2 library is external and
enters as a function parameter. -/
def processDiffData (bz2compress : List Nat → List Nat) (data : List Nat) :
    List Nat × Option Char :=
  let c := bz2compress data
  if c.length < data.length then (c, some 'B') else (data, none)

/-- The dictionary returned by `FileDiff.get_line_counts`. -/
structure LineCountsResult where
  raw_insert_count : Option Nat
  raw_delete_count : Option Nat
  insert_count : Option Nat
  delete_count : Option Nat
  replace_count : Option Nat
  equal_count : Option Nat
  total_line_count : Option Nat
deriving DecidableEq, Repr

/-- The line-count-related keys of `FileDiff.extra_data`.  For the raw
counts the outer `Option` records whether the key is present at all and the
inner one the stored value, which may itself be null when a recalculation
failed; the processed keys are only ever stored with actual numbers by
`set_line_counts`. -/
structure ExtraData where
  raw_insert_count : Option (Option Nat)
  raw_delete_count : Option (Option Nat)
  insert_count : Option Nat
  delete_count : Option Nat
  replace_count : Option Nat
  equal_count : Option Nat
  total_line_count : Option Nat
deriving DecidableEq, Repr

/-- The insert/delete counts stored on the associated `RawFileDiffData`. -/
structure RawDiffCounts where
  insert_count : Option Nat
  delete_count : Option Nat
deriving DecidableEq, Repr

/-- `RawFileDiffData.recalculate_line_counts` from
`reviewboard/diffviewer/models.py`: re-parsing the stored diff either
produces the per-file insert/delete counts or fails with a
`DiffParserError`, in which case the error is logged and the stored counts
remain untouched.  The parser lives in the missing
`reviewboard/diffviewer/parser.py`, so its outcome enters as the
`parsedCounts` parameter (per §4.2 of the specification the parser can
fail on malformed input). -/
def recalcLineCounts (parsedCounts : Option (Nat × Nat)) (dh : RawDiffCounts) :
    RawDiffCounts :=
  match parsedCounts with
  | some p => ⟨some p.1, some p.2⟩
  | none => dh

/-- `FileDiff.get_line_counts` from `reviewboard/diffviewer/models.py`:
when either raw count key is missing from `extra_data`, the counts are
recalculated (only if the stored `RawFileDiffData` has no insert count yet)
and cached in `extra_data`; the returned dictionary falls back from the
processed counts to the raw ones when no processed value was stored, and
passes the remaining keys through.  Returns the dictionary together with
the updated `extra_data` and `RawFileDiffData` counts. -/
def getLineCounts (parsedCounts : Option (Nat × Nat)) (ed : ExtraData)
    (dh : RawDiffCounts) : LineCountsResult × ExtraData × RawDiffCounts :=
  let step :=
    if ed.raw_insert_count = none ∨ ed.raw_delete_count = none then
      let dh2 := if dh.insert_count = none then recalcLineCounts parsedCounts dh else dh
      ({ ed with
          raw_insert_count := some dh2.insert_count,
          raw_delete_count := some dh2.delete_count }, dh2)
    else (ed, dh)
  let ed2 := step.1
  let ric := ed2.raw_insert_count.getD none
  let rdc := ed2.raw_delete_count.getD none
  (⟨ric, rdc,
    (match ed2.insert_count with
     | some v => some v
     | none => ric),
    (match ed2.delete_count with
     | some v => some v
     | none => rdc),
    ed2.replace_count, ed2.equal_count, ed2.total_line_count⟩, ed2, step.2)

/-- A fresh `extra_data` with no line-count keys stored. -/
def emptyExtraData : ExtraData :=
  ⟨none, none, none, none, none, none, none⟩

set_option maxRecDepth 10000

theorem foldl_invariant {α β : Type _} (P : β → Prop) (f : β → α → β) :
    ∀ (l : List α) (init : β), P init →
      (∀ acc x, x ∈ l → P acc → P (f acc x)) → P (l.foldl f init) := by
  intro l
  induction l with
  | nil => intro init h0 _; simpa using h0
  | cons a l ih =>
    intro init h0 hstep
    simp only [List.foldl_cons]
    exact ih _ (hstep init a (by simp) h0)
      (fun acc x hx hacc => hstep acc x (List.mem_cons_of_mem _ hx) hacc)

theorem matchLen_le [DecidableEq α] (a b : List α) :
    ∀ i j cap, matchLen a b i j cap ≤ cap := by
  intro i j cap
  induction cap generalizing i j with
  | zero => simp [matchLen]
  | succ n ih =>
    rw [matchLen]
    cases a[i]? with
    | none => exact Nat.zero_le _
    | some x =>
      cases b[j]? with
      | none => exact Nat.zero_le _
      | some y =>
        by_cases hxy : x = y
        · simp only [hxy, if_pos rfl]
          exact Nat.succ_le_succ (ih _ _)
        · simp [hxy]

/-- Whenever the longest-match search returns a block of nonzero length, the
block lies inside the requested window. -/
theorem findLongestMatch_valid [DecidableEq α] (a b : List α)
    (alo ahi blo bhi : Nat) :
    (findLongestMatch a b alo ahi blo bhi).2.2 ≠ 0 →
      alo ≤ (findLongestMatch a b alo ahi blo bhi).1 ∧
      (findLongestMatch a b alo ahi blo bhi).1 +
        (findLongestMatch a b alo ahi blo bhi).2.2 ≤ ahi ∧
      blo ≤ (findLongestMatch a b alo ahi blo bhi).2.1 ∧
      (findLongestMatch a b alo ahi blo bhi).2.1 +
        (findLongestMatch a b alo ahi blo bhi).2.2 ≤ bhi := by
  unfold findLongestMatch
  refine foldl_invariant
    (fun (t : Nat × Nat × Nat) =>
      t.2.2 ≠ 0 → alo ≤ t.1 ∧ t.1 + t.2.2 ≤ ahi ∧ blo ≤ t.2.1 ∧ t.2.1 + t.2.2 ≤ bhi)
    _ _ _ ?_ ?_
  · intro h; exact absurd rfl h
  · intro best i hi hbest
    refine foldl_invariant
      (fun (t : Nat × Nat × Nat) =>
        t.2.2 ≠ 0 → alo ≤ t.1 ∧ t.1 + t.2.2 ≤ ahi ∧ blo ≤ t.2.1 ∧ t.2.1 + t.2.2 ≤ bhi)
      _ _ _ hbest ?_
    intro best2 j hj hbest2
    unfold betterAt
    by_cases hlt : best2.2.2 < matchLen a b i j (min (ahi - i) (bhi - j))
    · simp only [if_pos hlt]
      intro _
      have hk := matchLen_le a b i j (min (ahi - i) (bhi - j))
      have hi' := List.mem_range'_1.mp hi
      have hj' := List.mem_range'_1.mp hj
      omega
    · simp only [if_neg hlt]
      exact hbest2

theorem chainedBlocks_mono (ahi bhi : Nat) :
    ∀ (L : List (Nat × Nat × Nat)) (alo blo alo' blo' : Nat),
      alo' ≤ alo → blo' ≤ blo → ChainedBlocks ahi bhi alo blo L →
      ChainedBlocks ahi bhi alo' blo' L := by
  intro L
  induction L with
  | nil =>
    intro alo blo alo' blo' ha hb h
    exact ⟨le_trans ha h.1, le_trans hb h.2⟩
  | cons x rest ih =>
    intro alo blo alo' blo' ha hb h
    obtain ⟨i, j, k⟩ := x
    obtain ⟨h1, h2, h3, h4, h5⟩ := h
    exact ⟨le_trans ha h1, h2, le_trans hb h3, h4, h5⟩

theorem chainedBlocks_append (ahi bhi mi mj : Nat) :
    ∀ (L R : List (Nat × Nat × Nat)) (alo blo : Nat),
      ChainedBlocks mi mj alo blo L → ChainedBlocks ahi bhi mi mj R →
      mi ≤ ahi → mj ≤ bhi → ChainedBlocks ahi bhi alo blo (L ++ R) := by
  intro L
  induction L with
  | nil =>
    intro R alo blo hL hR _ _
    exact chainedBlocks_mono ahi bhi R mi mj alo blo hL.1 hL.2 hR
  | cons x rest ih =>
    intro R alo blo hL hR hmi hmj
    obtain ⟨i, j, k⟩ := x
    obtain ⟨h1, h2, h3, h4, h5⟩ := hL
    exact ⟨h1, le_trans h2 hmi, h3, le_trans h4 hmj, ih R (i + k) (j + k) h5 hR hmi hmj⟩

theorem blocksGo_chained [DecidableEq α] (a b : List α) :
    ∀ (depth alo ahi blo bhi : Nat), alo ≤ ahi → blo ≤ bhi →
      ChainedBlocks ahi bhi alo blo (blocksGo a b depth alo ahi blo bhi) := by
  intro depth
  induction depth with
  | zero => intro alo ahi blo bhi ha hb; exact ⟨ha, hb⟩
  | succ d ih =>
    intro alo ahi blo bhi ha hb
    rw [blocksGo]
    rcases hfm : findLongestMatch a b alo ahi blo bhi with ⟨i, j, k⟩
    by_cases hk : k = 0
    · simp only [hfm, if_pos hk]
      exact ⟨ha, hb⟩
    · simp only [hfm, if_neg hk]
      have hv := findLongestMatch_valid a b alo ahi blo bhi (by rw [hfm]; exact hk)
      rw [hfm] at hv
      dsimp only at hv
      obtain ⟨hv1, hv2, hv3, hv4⟩ := hv
      refine chainedBlocks_append ahi bhi i j _ _ alo blo
        (ih alo i blo j hv1 hv3) ?_ (by omega) (by omega)
      exact ⟨le_rfl, hv2, le_rfl, hv4, ih (i + k) ahi (j + k) bhi hv2 hv4⟩

theorem chainFrom_append :
    ∀ (L1 : List Opcode) (s1 t1 s2 t2 s3 t3 : Nat) (L2 : List Opcode),
      ChainFrom s1 t1 s2 t2 L1 → ChainFrom s2 t2 s3 t3 L2 →
      ChainFrom s1 t1 s3 t3 (L1 ++ L2) := by
  intro L1
  induction L1 with
  | nil =>
    intro s1 t1 s2 t2 s3 t3 L2 h1 h2
    obtain ⟨he1, he2⟩ := h1
    rw [List.nil_append, he1, he2]
    exact h2
  | cons op rest ih =>
    intro s1 t1 s2 t2 s3 t3 L2 h1 h2
    obtain ⟨f1, f2, f3, f4, f5, f6⟩ := h1
    exact ⟨f1, f2, f3, f4, f5, ih _ _ _ _ _ _ L2 f6 h2⟩

theorem gapOps_chain (ia ja i j : Nat) (hi : ia ≤ i) (hj : ja ≤ j) :
    ChainFrom ia ja i j (gapOps ia ja i j) := by
  simp only [gapOps]
  split_ifs with h1 h2 h3 <;> simp_all [ChainFrom] <;> omega

theorem opcodesFromBlocks_chain (alen blen : Nat) :
    ∀ (blocks : List (Nat × Nat × Nat)) (ia ja : Nat),
      ChainedBlocks alen blen ia ja blocks →
      ChainFrom ia ja alen blen (opcodesFromBlocks alen blen blocks ia ja) := by
  intro blocks
  induction blocks with
  | nil =>
    intro ia ja h
    exact gapOps_chain ia ja alen blen h.1 h.2
  | cons x rest ih =>
    intro ia ja h
    obtain ⟨i, j, k⟩ := x
    obtain ⟨h1, h2, h3, h4, h5⟩ := h
    rw [opcodesFromBlocks]
    refine chainFrom_append _ ia ja i j alen blen _ (gapOps_chain ia ja i j h1 h3) ?_
    exact ⟨rfl, rfl, Nat.le_add_right i k, Nat.le_add_right j k, by simp,
      ih (i + k) (j + k) h5⟩

/-- The depth-bounded matching-block recursion is independent of the bound
once it exceeds the combined window size, so `blocksIn`'s choice of bound
computes the specification's unbounded recursion. -/
theorem blocksGo_stable [DecidableEq α] (a b : List α) :
    ∀ (d1 d2 alo ahi blo bhi : Nat),
      (ahi - alo) + (bhi - blo) < d1 → (ahi - alo) + (bhi - blo) < d2 →
      blocksGo a b d1 alo ahi blo bhi = blocksGo a b d2 alo ahi blo bhi := by
  intro d1
  induction d1 using Nat.strong_induction_on with
  | _ d1 ih =>
    intro d2 alo ahi blo bhi h1 h2
    rcases d1 with _ | e1
    · omega
    rcases d2 with _ | e2
    · omega
    rw [blocksGo, blocksGo]
    rcases hfm : findLongestMatch a b alo ahi blo bhi with ⟨i, j, k⟩
    by_cases hk : k = 0
    · simp [hk]
    · simp only [if_neg hk]
      have hv := findLongestMatch_valid a b alo ahi blo bhi (by rw [hfm]; exact hk)
      rw [hfm] at hv
      dsimp only at hv
      obtain ⟨hv1, hv2, hv3, hv4⟩ := hv
      have hk1 : 1 ≤ k := Nat.one_le_iff_ne_zero.mpr hk
      have hleft : blocksGo a b e1 alo i blo j = blocksGo a b e2 alo i blo j := by
        have he1 : (i - alo) + (j - blo) < e1 := by omega
        have he2 : (i - alo) + (j - blo) < e2 := by omega
        exact ih e1 (by omega) e2 alo i blo j he1 he2
      have hright :
          blocksGo a b e1 (i + k) ahi (j + k) bhi =
            blocksGo a b e2 (i + k) ahi (j + k) bhi := by
        have he1 : (ahi - (i + k)) + (bhi - (j + k)) < e1 := by omega
        have he2 : (ahi - (i + k)) + (bhi - (j + k)) < e2 := by omega
        exact ih e1 (by omega) e2 (i + k) ahi (j + k) bhi he1 he2
      rw [hleft, hright]

theorem computeOpcodes_chain [DecidableEq α] (a b : List α) :
    ChainFrom 0 0 a.length b.length (computeOpcodes a b) :=
  opcodesFromBlocks_chain a.length b.length _ 0 0
    (blocksGo_chained a b _ 0 a.length 0 b.length (Nat.zero_le _) (Nat.zero_le _))

/-- C1: for every pair of line sequences A and B, the opcodes returned by
`computeOpcodes` partition `[0, length A)` and `[0, length B)` contiguously
and in order — each opcode starts exactly where the previous one ended, the
first starts at 0, the last ends at the sequence lengths, so the ranges
cover both intervals exactly once — and every `replace` opcode satisfies
`i2 - i1 = j2 - j1`. -/
theorem C1_opcode_partition (a b : List (List Char)) :
    ChainFrom 0 0 a.length b.length (computeOpcodes a b) :=
  computeOpcodes_chain a b

/-- C3: patching any original content with an empty diff returns the content
unchanged, whatever the delegated external patch implementation does; in
particular patching the content "This is a test" with an empty diff returns
"This is a test". -/
theorem C3_empty_patch :
    (∀ (ext : List Char → List Char → List Char → Option (List Char))
        (orig fname : List Char),
      applyPatch ext [] orig fname = some orig) ∧
    (∀ ext, applyPatch ext [] ("This is a test".data) ("test.c".data) =
      some ("This is a test".data)) :=
  ⟨fun _ _ _ => rfl, fun _ => rfl⟩

theorem foldl_max_ge_init : ∀ (l : List Nat) (acc : Nat), acc ≤ l.foldl max acc := by
  intro l
  induction l with
  | nil => intro acc; exact le_rfl
  | cons x rest ih =>
    intro acc
    exact le_trans (Nat.le_max_left acc x) (ih (max acc x))

theorem foldl_max_ge_mem :
    ∀ (l : List Nat) (acc : Nat), ∀ r ∈ l, r ≤ l.foldl max acc := by
  intro l
  induction l with
  | nil => intro acc r hr; cases hr
  | cons x rest ih =>
    intro acc r hr
    rcases List.mem_cons.mp hr with h | h
    · subst h
      exact le_trans (Nat.le_max_right acc r) (foldl_max_ge_init rest (max acc r))
    · exact ih (max acc x) r h

theorem latestRevision_range' : ∀ n : Nat, latestRevision (List.range' 1 n) = n := by
  intro n
  induction n with
  | zero => rfl
  | succ m ih =>
    have hconcat : List.range' 1 (m + 1) = List.range' 1 m ++ [m + 1] := by
      simpa [Nat.add_comm] using List.range'_1_concat 1 m
    rw [latestRevision, hconcat, List.foldl_append]
    rw [latestRevision] at ih
    simp only [List.foldl_cons, List.foldl_nil]
    omega

/-- C7: saving a `DiffSet` whose revision is 0 into a history assigns
revision 1 when the history holds no diffsets and one more than the most
recent (highest) existing revision otherwise, so every newly saved diffset
receives a revision strictly greater than all earlier ones; a history built
purely of such saves carries exactly the revisions 1, 2, ..., n. -/
theorem C7_revision_monotonic :
    saveRevision 0 [] = 1 ∧
    (∀ hist : List Nat, hist ≠ [] →
      saveRevision 0 hist = latestRevision hist + 1 ∧
      ∀ r ∈ hist, r < saveRevision 0 hist) ∧
    (∀ n : Nat, historyAfter n = List.range' 1 n) := by
  refine ⟨rfl, ?_, ?_⟩
  · intro hist hne
    have heq : saveRevision 0 hist = latestRevision hist + 1 := by
      simp [saveRevision, hne]
    refine ⟨heq, ?_⟩
    intro r hr
    rw [heq]
    have := foldl_max_ge_mem hist 0 r hr
    rw [latestRevision]
    omega
  · intro n
    induction n with
    | zero => rfl
    | succ m ih =>
      have hconcat : List.range' 1 (m + 1) = List.range' 1 m ++ [m + 1] := by
        simpa [Nat.add_comm] using List.range'_1_concat 1 m
      rcases Nat.eq_zero_or_pos m with hm | hm
      · subst hm; rfl
      · have hne : List.range' 1 m ≠ [] := by
          intro h
          have hlen := congrArg List.length h
          simp at hlen
          omega
        have hsave : saveRevision 0 (List.range' 1 m) = m + 1 := by
          simp [saveRevision, hne, latestRevision_range']
        rw [historyAfter, ih, hconcat, hsave]

/-- C7 witness: a history holding revisions 1 and 2 assigns revision 3 — one
more than the highest — to the next revision-0 save, strictly above both. -/
theorem C7_revision_monotonic_witness :
    saveRevision 0 [1, 2] = latestRevision [1, 2] + 1 ∧
      ∀ r ∈ [1, 2], r < saveRevision 0 [1, 2] :=
  C7_revision_monotonic.2.1 [1, 2] (by decide)

/-- C8: reading `RawFileDiffData.content` with the bzip2 marker returns the
bz2-decompressed stored bytes, with no marker returns the stored bytes
unchanged, and with any other marker fails with the distinct
unsupported-compression error (`NotImplementedError`), which is a different
condition from a `DiffParserError`. -/
theorem C8_content_markers :
    (∀ (dec : List Nat → List Nat) (binary : List Nat),
      rawContent dec (some 'B') binary = Except.ok (dec binary)) ∧
    (∀ (dec : List Nat → List Nat) (binary : List Nat),
      rawContent dec none binary = Except.ok binary) ∧
    (∀ (dec : List Nat → List Nat) (binary : List Nat) (c : Char), c ≠ 'B' →
      rawContent dec (some c) binary =
        Except.error (DiffDataError.notImplemented c)) ∧
    (∀ (c : Char) (msg : List Char),
      DiffDataError.notImplemented c ≠ DiffDataError.diffParserError msg) := by
  refine ⟨fun _ _ => rfl, fun _ _ => rfl, ?_, ?_⟩
  · intro dec binary c hc
    simp [rawContent, hc]
  · intro c msg h
    cases h

/-- C8 witness: the marker 'X' is neither bzip2 nor absent, and reading the
content under it yields the unsupported-compression error. -/
theorem C8_content_markers_witness :
    rawContent (fun x => x) (some 'X') [7] =
      Except.error (DiffDataError.notImplemented 'X') :=
  C8_content_markers.2.2.1 (fun x => x) [7] 'X' (by decide)

/-- C9: for any bz2 implementation whose decompression inverts its
compression, stored diff data round-trips exactly — decoding the stored
bytes under the stored marker returns the originally uploaded bytes — and
the bzip2 marker is chosen exactly when the compressed form is smaller than
the raw data. -/
theorem C9_diff_data_round_trip :
    ∀ (comp dec : List Nat → List Nat), (∀ x, dec (comp x) = x) →
      ∀ d : List Nat,
        rawContent dec (processDiffData comp d).2 (processDiffData comp d).1 =
          Except.ok d ∧
        ((processDiffData comp d).2 = some 'B' ↔ (comp d).length < d.length) := by
  intro comp dec hinv d
  by_cases h : (comp d).length < d.length
  · constructor
    · simp [processDiffData, h, rawContent, hinv d]
    · simp [processDiffData, h]
  · constructor
    · simp [processDiffData, h, rawContent]
    · simp [processDiffData, h]

/-- C9 witness: with the identity as the (never smaller) compressor, the
data [1, 2, 3] is stored raw, decodes to itself, and carries no bzip2
marker. -/
theorem C9_diff_data_round_trip_witness :
    rawContent (fun x => x) (processDiffData (fun x => x) [1, 2, 3]).2
        (processDiffData (fun x => x) [1, 2, 3]).1 = Except.ok [1, 2, 3] ∧
      ((processDiffData (fun x => x) [1, 2, 3]).2 = some 'B' ↔
        ((fun (x : List Nat) => x) [1, 2, 3]).length < ([1, 2, 3] : List Nat).length) :=
  C9_diff_data_round_trip (fun x => x) (fun x => x) (fun _ => rfl) [1, 2, 3]

theorem countLine_good (f : FileDiffRecord) (line : List Char)
    (h1 : f.insert_count = specInsertCount f.body)
    (h2 : f.delete_count = specDeleteCount f.body) :
    (countLine f line).insert_count = specInsertCount (countLine f line).body ∧
    (countLine f line).delete_count = specDeleteCount (countLine f line).body := by
  constructor <;>
    simp [countLine, specInsertCount, specDeleteCount, List.countP_append,
      List.countP_cons, h1, h2]

theorem parseDiffGo_good :
    ∀ (lines : List (List Char)) (cur : Option FileDiffRecord),
      (∀ f, cur = some f →
        f.insert_count = specInsertCount f.body ∧
        f.delete_count = specDeleteCount f.body) →
      ∀ r ∈ parseDiffGo lines cur,
        r.insert_count = specInsertCount r.body ∧
        r.delete_count = specDeleteCount r.body := by
  intro lines cur
  induction lines, cur using parseDiffGo.induct with
  | case1 cur =>
    intro hcur r hr
    cases cur with
    | none => simp [parseDiffGo, flushFile] at hr
    | some f =>
      simp only [parseDiffGo, flushFile, List.mem_singleton] at hr
      cases hr
      exact hcur _ rfl
  | case2 line f =>
    intro hcur r hr
    simp only [parseDiffGo, List.mem_singleton] at hr
    subst hr
    obtain ⟨h1, h2⟩ := hcur f rfl
    exact countLine_good f line h1 h2
  | case3 line =>
    intro _ r hr
    simp [parseDiffGo] at hr
  | case4 line next rest2 cur hcond ih =>
    intro hcur r hr
    simp only [parseDiffGo, if_pos hcond, List.mem_append] at hr
    rcases hr with hr | hr
    · cases cur with
      | none => simp [flushFile] at hr
      | some f =>
        simp only [flushFile, List.mem_singleton] at hr
        cases hr
        exact hcur _ rfl
    · exact ih (by intro f h; cases h; exact ⟨rfl, rfl⟩) r hr
  | case5 line next rest2 hcond f ih =>
    intro hcur r hr
    simp only [parseDiffGo, if_neg hcond] at hr
    obtain ⟨h1, h2⟩ := hcur f rfl
    exact ih
      (by
        intro g hg
        cases hg
        exact countLine_good f line h1 h2) r hr
  | case6 line next rest2 hcond ih =>
    intro _ r hr
    simp only [parseDiffGo, if_neg hcond] at hr
    exact ih (by intro f h; cases h) r hr

/-- C5: every file record produced by the diff parser carries an
`insert_count` equal to the number of its hunk body lines whose first byte
is `+` (excluding `+++` header lines) and a `delete_count` equal to the
number of its hunk body lines whose first byte is `-` (excluding `---`
header lines); parsing the documented example diff — one file preceded by
noise lines — yields exactly one record with `insert_count` 3 and
`delete_count` 4. -/
theorem C5_parser_line_counts :
    (∀ (lines : List (List Char)) (r : FileDiffRecord), r ∈ parseDiff lines →
      r.insert_count = specInsertCount r.body ∧
      r.delete_count = specDeleteCount r.body) ∧
    (parseDiff c5ExampleLines).map (fun f => (f.insert_count, f.delete_count)) =
      [(3, 4)] :=
  ⟨fun lines r hr =>
    parseDiffGo_good lines none (by intro f h; cases h) r hr,
   by decide⟩

/-- C5 witness: the single record parsed from the documented example diff
(its body is the example's trailing eight lines) satisfies the counting
property with the concrete counts 3 and 4. -/
theorem C5_parser_line_counts_witness :
    (3 : Nat) = specInsertCount (c5ExampleLines.drop 6) ∧
    (4 : Nat) = specDeleteCount (c5ExampleLines.drop 6) :=
  C5_parser_line_counts.1 c5ExampleLines ⟨c5ExampleLines.drop 6, 3, 4⟩ (by decide)

theorem filterOut_balanced (oR nR : Option (Int × Int)) (op : Opcode)
    (hop : op.tag = Tag.replace → op.i2 - op.i1 = op.j2 - op.j1) :
    ∀ o ∈ filterOut oR nR op, o.tag = Tag.replace → o.i2 - o.i1 = o.j2 - o.j1 := by
  intro o ho htag
  rcases op with ⟨tag, i1, i2, j1, j2⟩
  cases tag with
  | equal =>
    simp only [filterOut] at ho
    split at ho
    · simp only [List.mem_singleton] at ho
      subst ho
      simp at htag
    · split at ho
      · simp only [List.mem_cons, List.mem_singleton, List.not_mem_nil, or_false] at ho
        rcases ho with rfl | rfl <;> simp at htag
      · simp only [List.mem_singleton] at ho
        subst ho
        simp at htag
  | insert =>
    simp only [filterOut] at ho
    split at ho <;> simp only [List.mem_singleton] at ho <;> subst ho <;> simp at htag
  | delete =>
    simp only [filterOut] at ho
    split at ho <;> simp only [List.mem_singleton] at ho <;> subst ho <;> simp at htag
  | filteredEqual =>
    simp only [filterOut] at ho
    split at ho <;> simp only [List.mem_singleton] at ho <;> subst ho <;> simp at htag
  | replace =>
    simp only [filterOut] at ho
    split at ho
    · simp only [List.mem_singleton] at ho
      subst ho
      simp at htag
    · split at ho
      · simp only [List.mem_cons, List.mem_singleton, List.not_mem_nil, or_false] at ho
        rcases ho with rfl | rfl
        · dsimp only
          omega
        · simp at htag
      · simp only [List.mem_singleton] at ho
        subst ho
        exact hop htag

theorem foldl_filterStep_balanced (origRanges newRanges : List (Int × Int)) :
    ∀ (ops : List Opcode) (st : Nat × Nat × List Opcode),
      (∀ op ∈ ops, op.tag = Tag.replace → op.i2 - op.i1 = op.j2 - op.j1) →
      (∀ o ∈ st.2.2, o.tag = Tag.replace → o.i2 - o.i1 = o.j2 - o.j1) →
      ∀ o ∈ (ops.foldl (filterStep origRanges newRanges) st).2.2,
        o.tag = Tag.replace → o.i2 - o.i1 = o.j2 - o.j1 := by
  intro ops
  induction ops with
  | nil =>
    intro st _ hacc
    simpa using hacc
  | cons op rest ih =>
    intro st hops hacc
    simp only [List.foldl_cons]
    refine ih _ (fun o ho => hops o (List.mem_cons_of_mem _ ho)) ?_
    intro o ho
    simp only [filterStep] at ho
    rcases List.mem_append.mp ho with h | h
    · exact hacc o h
    · exact filterOut_balanced _ _ op (hops op (List.mem_cons_self _ _)) o h

theorem filterInterdiff_balanced :
    ∀ (ops : List Opcode) (da db : List Char), replacesBalanced ops →
      replacesBalanced (filterInterdiffOpcodes ops da db) := by
  intro ops da db hops
  simp only [filterInterdiffOpcodes]
  split_ifs with h
  · exact hops
  · intro o ho
    exact foldl_filterStep_balanced _ _ ops (0, 0, []) hops (by intro o ho; cases ho) o ho

/-- C2: on the documented bug-3440 regression input — opcodes
`[(equal,0,2,0,2), (replace,2,100,2,100)]` against the given original and
new hunk headers — the interdiff filter returns exactly
`[(equal,0,2,0,2), (replace,2,15,2,15), (filtered-equal,15,100,15,100)]`,
the replace being widened symmetrically instead of truncated to unequal
side lengths; and in general, whenever the incoming replace opcodes are
balanced, every replace opcode the filter emits has sides of equal length,
so a mismatched-length replace is never produced. -/
theorem C2_interdiff_replace_widening :
    filterInterdiffOpcodes
        [⟨Tag.equal, 0, 2, 0, 2⟩, ⟨Tag.replace, 2, 100, 2, 100⟩]
        ("@@ -1,4 +1,5 @@\n-#\n@@ -8,18 +9,19 @\n #\n #\n #\n+#\n".data)
        ("@@ -1,10 +1,14 @@\n-#\n".data) =
      [⟨Tag.equal, 0, 2, 0, 2⟩, ⟨Tag.replace, 2, 15, 2, 15⟩,
       ⟨Tag.filteredEqual, 15, 100, 15, 100⟩] ∧
    (∀ (ops : List Opcode) (da db : List Char), replacesBalanced ops →
      replacesBalanced (filterInterdiffOpcodes ops da db)) :=
  ⟨by decide, filterInterdiff_balanced⟩

/-- C2 witness: the regression opcodes are balanced and the filtered result
on them is balanced as well. -/
theorem C2_interdiff_replace_widening_witness :
    replacesBalanced (filterInterdiffOpcodes
      [⟨Tag.equal, 0, 2, 0, 2⟩, ⟨Tag.replace, 2, 100, 2, 100⟩]
      ("@@ -1,4 +1,5 @@\n-#\n@@ -8,18 +9,19 @\n #\n #\n #\n+#\n".data)
      ("@@ -1,10 +1,14 @@\n-#\n".data)) :=
  C2_interdiff_replace_widening.2
    [⟨Tag.equal, 0, 2, 0, 2⟩, ⟨Tag.replace, 2, 100, 2, 100⟩] _ _
    (by unfold replacesBalanced; decide)

/-- C4 counterexample: with a = "1\n2\n3\n7\n" and b = "1\n2\n4\n5\n6\n7\n"
actually split into lines (["1","2","3","7"] against
["1","2","4","5","6","7"]), the opcodes are
`[(equal,0,2,0,2), (replace,2,3,2,3), (insert,3,3,3,5), (equal,3,4,5,6)]` —
covering `[0,4) × [0,6)`, the line counts — and not the claimed list, whose
indexes run to 8 and 12 and can only arise from the character counts of the
two strings. -/
theorem C4_lines_counterexample :
    computeOpcodes (splitLines ("1\n2\n3\n7\n".data))
        (splitLines ("1\n2\n4\n5\n6\n7\n".data)) =
      [⟨Tag.equal, 0, 2, 0, 2⟩, ⟨Tag.replace, 2, 3, 2, 3⟩,
       ⟨Tag.insert, 3, 3, 3, 5⟩, ⟨Tag.equal, 3, 4, 5, 6⟩] ∧
    computeOpcodes (splitLines ("1\n2\n3\n7\n".data))
        (splitLines ("1\n2\n4\n5\n6\n7\n".data)) ≠
      [⟨Tag.equal, 0, 4, 0, 4⟩, ⟨Tag.replace, 4, 5, 4, 5⟩,
       ⟨Tag.insert, 5, 5, 5, 9⟩, ⟨Tag.equal, 5, 8, 9, 12⟩] := by
  decide

/-- C4 amended: diffing the two strings as the character sequences the
differ actually receives (the test hands the raw strings to the sequence
matcher, which iterates their characters) yields exactly
`[(equal,0,4,0,4), (replace,4,5,4,5), (insert,5,5,5,9), (equal,5,8,9,12)]`. -/
theorem C4_char_opcodes :
    computeOpcodes ("1\n2\n3\n7\n".data) ("1\n2\n4\n5\n6\n7\n".data) =
      [⟨Tag.equal, 0, 4, 0, 4⟩, ⟨Tag.replace, 4, 5, 4, 5⟩,
       ⟨Tag.insert, 5, 5, 5, 9⟩, ⟨Tag.equal, 5, 8, 9, 12⟩] := by
  decide

/-- C6 counterexample: on the documented threshold test pair a move is
detected (some enriched opcode carries `moved-to` metadata), yet no opcode
covering the deleted a-side line 4 — the deletion side of the relocation —
carries any `moved-from` metadata, refuting the claim that `moved-from`
annotates the deletion side. -/
theorem C6_sides_counterexample :
    (∃ m ∈ enrichOpcodes c6LinesA c6LinesB, m.movedTo ≠ []) ∧
    ¬ (∃ m ∈ enrichOpcodes c6LinesA c6LinesB,
        (m.op.i1 ≤ 3 ∧ 3 < m.op.i2) ∧ m.movedFrom ≠ []) := by
  decide

/-- C6 amended: for the documented relocation of a line long enough to pass
the move thresholds, the enriched opcodes carry `moved-to` metadata on the
deletion side (mapping the 1-based deleted line to the inserted one,
`{4: 1}`) and `moved-from` metadata on the insertion side (the inverse map
`{1: 4}`), the two maps being swaps of each other; and for a relocated
block consisting only of identical short noise lines (`----`), no opcode is
annotated as moved. -/
theorem C6_move_detection_amended :
    enrichOpcodes c6LinesA c6LinesB =
      [⟨⟨Tag.replace, 0, 1, 0, 1⟩, [(1, 4)], []⟩,
       ⟨⟨Tag.equal, 1, 3, 1, 3⟩, [], []⟩,
       ⟨⟨Tag.replace, 3, 4, 3, 4⟩, [], [(4, 1)]⟩] ∧
    (∀ r : MoveRun, List.map Prod.swap (runMovedFrom r) = runMovedTo r) ∧
    (∀ m ∈ enrichOpcodes c6NoiseA c6NoiseB, m.movedFrom = [] ∧ m.movedTo = []) := by
  refine ⟨by decide, ?_, by decide⟩
  intro r
  simp [runMovedFrom, runMovedTo, List.map_map, Function.comp_def, Prod.swap]

/-- C6 witness: the move run detected on the threshold pair has mutually
inverse `moved-from` and `moved-to` maps. -/
theorem C6_move_detection_amended_witness :
    List.map Prod.swap (runMovedFrom ⟨0, 3, 1, [2]⟩) = runMovedTo ⟨0, 3, 1, [2]⟩ :=
  C6_move_detection_amended.2.1 ⟨0, 3, 1, [2]⟩

/-- C10 counterexample: when no raw counts are cached, the stored
`RawFileDiffData` has no counts, and recalculating fails (the stored diff
does not parse as exactly one file), `get_line_counts` returns a dictionary
whose `raw_insert_count` and `raw_delete_count` are both None — the failure
is caught and logged and the null counts are cached — refuting the claim
that every call returns non-None raw counts. -/
theorem C10_raw_counts_counterexample :
    (getLineCounts none emptyExtraData ⟨none, none⟩).1.raw_insert_count = none ∧
    (getLineCounts none emptyExtraData ⟨none, none⟩).1.raw_delete_count = none ∧
    (getLineCounts none emptyExtraData ⟨none, none⟩).2.1.raw_insert_count =
      some none := by
  decide

/-- C10 amended: `get_line_counts` returns non-None `raw_insert_count` and
`raw_delete_count` — recomputed from the stored diff and cached in
`extra_data` on first access — provided any cached raw values are actual
numbers and, when recomputation is needed, the stored diff's counts are
recoverable (the parse succeeds, or the stored `RawFileDiffData` already
carries both counts); `insert_count` and `delete_count` equal the raw
counts whenever no processed values were previously stored, and
`replace_count`, `equal_count` and `total_line_count` are exactly the
stored values — None unless explicitly set. -/
theorem C10_line_counts_amended :
    ∀ (parsedCounts : Option (Nat × Nat)) (ed : ExtraData) (dh : RawDiffCounts),
      ed.raw_insert_count ≠ some none →
      ed.raw_delete_count ≠ some none →
      ((ed.raw_insert_count = none ∨ ed.raw_delete_count = none) →
        (dh.insert_count = none → parsedCounts ≠ none) ∧
        (dh.insert_count ≠ none → dh.delete_count ≠ none)) →
      (getLineCounts parsedCounts ed dh).1.raw_insert_count ≠ none ∧
      (getLineCounts parsedCounts ed dh).1.raw_delete_count ≠ none ∧
      (getLineCounts parsedCounts ed dh).2.1.raw_insert_count =
        some (getLineCounts parsedCounts ed dh).1.raw_insert_count ∧
      (getLineCounts parsedCounts ed dh).2.1.raw_delete_count =
        some (getLineCounts parsedCounts ed dh).1.raw_delete_count ∧
      (ed.insert_count = none →
        (getLineCounts parsedCounts ed dh).1.insert_count =
          (getLineCounts parsedCounts ed dh).1.raw_insert_count) ∧
      (ed.delete_count = none →
        (getLineCounts parsedCounts ed dh).1.delete_count =
          (getLineCounts parsedCounts ed dh).1.raw_delete_count) ∧
      (getLineCounts parsedCounts ed dh).1.replace_count = ed.replace_count ∧
      (getLineCounts parsedCounts ed dh).1.equal_count = ed.equal_count ∧
      (getLineCounts parsedCounts ed dh).1.total_line_count = ed.total_line_count := by
  intro parsedCounts ed dh h1 h2 h3
  rcases ed with ⟨ri, rd, ic, dc, rc, ec, tc⟩
  rcases dh with ⟨di, dd⟩
  by_cases hcase : ri = none ∨ rd = none
  · obtain ⟨h3a, h3b⟩ := h3 hcase
    by_cases hdi : di = none
    · subst hdi
      rcases hp : parsedCounts with _ | ⟨p1, p2⟩
      · exact absurd hp (h3a rfl)
      · subst hp
        simp only [getLineCounts, recalcLineCounts, hcase, if_pos, if_true]
        simp [hcase]
        constructor
        · intro h; subst h; simp
        · intro h; subst h; simp
    · rcases hdd : dd with _ | dv
      · exact absurd (h3b hdi) (by simp [hdd])
      · rcases hdi2 : di with _ | iv
        · exact absurd hdi2 hdi
        · subst hdd hdi2
          simp only [getLineCounts, recalcLineCounts, hcase]
          simp [hcase]
          constructor
          · intro h; subst h; simp
          · intro h; subst h; simp
  · push_neg at hcase
    obtain ⟨hri, hrd⟩ := hcase
    rcases hri2 : ri with _ | riv
    · exact absurd hri2 hri
    · rcases hrd2 : rd with _ | rdv
      · exact absurd hrd2 hrd
      · subst hri2 hrd2
        rcases riv with _ | rivv
        · exact absurd rfl h1
        · rcases rdv with _ | rdvv
          · exact absurd rfl h2
          · simp only [getLineCounts]
            simp
            constructor
            · intro h; subst h; simp
            · intro h; subst h; simp

/-- C10 witness: the default scenario of the cited test — fresh
`extra_data`, no stored counts, and a stored diff whose recalculation
yields 2 inserts and 1 delete — satisfies the amended claim's conclusion
concretely. -/
theorem C10_line_counts_amended_witness :
    (getLineCounts (some (2, 1)) emptyExtraData ⟨none, none⟩).1.raw_insert_count ≠ none ∧
    (getLineCounts (some (2, 1)) emptyExtraData ⟨none, none⟩).1.raw_delete_count ≠ none ∧
    (getLineCounts (some (2, 1)) emptyExtraData ⟨none, none⟩).2.1.raw_insert_count =
      some (getLineCounts (some (2, 1)) emptyExtraData ⟨none, none⟩).1.raw_insert_count ∧
    (getLineCounts (some (2, 1)) emptyExtraData ⟨none, none⟩).2.1.raw_delete_count =
      some (getLineCounts (some (2, 1)) emptyExtraData ⟨none, none⟩).1.raw_delete_count ∧
    (emptyExtraData.insert_count = none →
      (getLineCounts (some (2, 1)) emptyExtraData ⟨none, none⟩).1.insert_count =
        (getLineCounts (some (2, 1)) emptyExtraData ⟨none, none⟩).1.raw_insert_count) ∧
    (emptyExtraData.delete_count = none →
      (getLineCounts (some (2, 1)) emptyExtraData ⟨none, none⟩).1.delete_count =
        (getLineCounts (some (2, 1)) emptyExtraData ⟨none, none⟩).1.raw_delete_count) ∧
    (getLineCounts (some (2, 1)) emptyExtraData ⟨none, none⟩).1.replace_count =
      emptyExtraData.replace_count ∧
    (getLineCounts (some (2, 1)) emptyExtraData ⟨none, none⟩).1.equal_count =
      emptyExtraData.equal_count ∧
    (getLineCounts (some (2, 1)) emptyExtraData ⟨none, none⟩).1.total_line_count =
      emptyExtraData.total_line_count :=
  C10_line_counts_amended (some (2, 1)) emptyExtraData ⟨none, none⟩
    (by decide) (by decide) (by decide)
